import Mathlib

/-
Verification of the greenlet-based A2A agent runtime
(src/agents/python/greenlet_a2a_agent.py and greenlet_coordinator.py).

The agent is a stackful coroutine; we embed it as an explicit state
machine.  `resume` computes one resume-to-suspension segment of `_run`:
the value handed to the suspended `main_greenlet.switch()` call is
handled if truthy (Python `if message:`), then the queue is drained
while `running` holds, then the loop either suspends again (greenlet
stays alive) or falls out of `while self.running` and the greenlet dies.

Subclass `handle_message` bodies are abstracted by their observable
effect on the loop: whether the call raises (caught at the loop
boundary, counted in `errors`) and whether it invokes `stop()` (the
base dispatch does so for kind "agent.stop"; inside the agent greenlet
`stop()` amounts to setting `running` to False, since the switch to the
current greenlet is a no-op).  `json.dumps` in `_send_message` is
abstracted as a partial serialization function.  Real time
(`time.sleep`, timestamp metrics) is not modelled.  The ghost fields
`handled`, `output` and `resumes` record the trace of `handle_message`
invocations, the lines printed to stdout, and the number of times the
agent greenlet has been resumed after start.
-/

namespace A2A

/-- Observable effect of one `handle_message` call on the loop. -/
structure HEffect where
  raises : Bool
  stops : Bool
deriving DecidableEq

/-- Ambient parameters of the embedding: the (subclass) handler's effect,
Python truthiness of a message dict (`if message:` — an empty dict is
falsy), and the outcome of `json.dumps`. -/
structure Env (M : Type) where
  handler : M → HEffect
  truthy : M → Bool
  ser : M → Option String

/-- State of one `GreenletA2AAgent`.  `greenlet_exists` is
`agent_greenlet is not None`; `greenlet_dead` is `agent_greenlet.dead`. -/
structure AgentState (M : Type) where
  agent_id : String
  capabilities : List String
  running : Bool
  max_queue_size : Nat
  message_queue : List M
  greenlet_exists : Bool
  greenlet_dead : Bool
  messages_sent : Nat
  errors : Nat
  output : List String
  handled : List M
  resumes : Nat
deriving DecidableEq

/-- Model of `GreenletA2AAgent.__init__`. -/
def initAgent (M : Type) (agent_id : String) (capabilities : List String)
    (max_queue_size : Nat) : AgentState M :=
  ⟨agent_id, capabilities, false, max_queue_size, [], false, false, 0, 0, [], [], 0⟩

/-- One guarded `handle_message` call at the loop boundary:
`try: self.handle_message(m) except: errors += 1`.  The handler's
`stops` effect clears the running flag (base kind "agent.stop"). -/
def handleOne {M : Type} (E : Env M) (a : AgentState M) (m : M) : AgentState M :=
  let eff := E.handler m
  { a with handled := a.handled ++ [m],
           running := a.running && !eff.stops,
           errors := a.errors + (if eff.raises then 1 else 0) }

/-- The inner drain loop of `_run`:
`while self.message_queue and self.running: handle(popleft())`.
The list argument is the current queue content. -/
def drainGo {M : Type} (E : Env M) : List M → AgentState M → AgentState M
  | [], a => { a with message_queue := [] }
  | m :: rest, a =>
    if a.running then
      drainGo E rest (handleOne E { a with message_queue := rest } m)
    else { a with message_queue := m :: rest }

/-- The top of `while self.running` in `_run`: either drain the queue
and suspend again (greenlet stays alive), or exit the loop, upon which
`_run` returns and the greenlet dies. -/
def loopStep {M : Type} (E : Env M) (a : AgentState M) : AgentState M :=
  if a.running then drainGo E a.message_queue a
  else { a with greenlet_dead := true }

/-- One resume of the suspended agent greenlet with hand-off value `v`
(`None` or a message): `message = self.main_greenlet.switch()` returns
`v`; `if message:` handles it; then the loop continues at its top. -/
def resume {M : Type} (E : Env M) (a : AgentState M) (v : Option M) : AgentState M :=
  let a1 := { a with resumes := a.resumes + 1 }
  let a2 := match v with
    | some m => if E.truthy m then handleOne E a1 m else a1
    | none => a1
  loopStep E a2

/-- Model of `GreenletA2AAgent._send_message`: the `messages_sent` counter is
incremented inside the `try` before `json.dumps`; a serialization
failure is caught, counted as an error, and writes no line. -/
def send_message {M : Type} (E : Env M) (a : AgentState M) (m : M) : AgentState M :=
  let a1 := { a with messages_sent := a.messages_sent + 1 }
  match E.ser m with
  | some line => { a1 with output := a1.output ++ [line] }
  | none => { a1 with errors := a1.errors + 1 }

/-- Model of `GreenletA2AAgent.start`: sets the running flag, creates the agent
greenlet and switches into `_run`, which emits the registration message
`reg`, drains once and suspends. -/
def start {M : Type} (E : Env M) (reg : M) (a : AgentState M) : AgentState M :=
  let a1 := { a with running := true, greenlet_exists := true, greenlet_dead := false }
  loopStep E (send_message E a1 reg)

/-- Model of `GreenletA2AAgent.stop`: clears the running flag; if the greenlet
exists and is not dead it is resumed once with the `None` sentinel so
the loop observes the flag and exits. -/
def stop {M : Type} (E : Env M) (a : AgentState M) : AgentState M :=
  let a1 := { a with running := false }
  if a1.greenlet_exists && !a1.greenlet_dead then resume E a1 none else a1

/-- Model of `GreenletA2AAgent.receive_message`: a no-op unless the greenlet
exists and is alive; bypasses the queue (resuming with the message as
hand-off) when the queue is full, otherwise appends and resumes with
`None`. -/
def receive_message {M : Type} (E : Env M) (a : AgentState M) (m : M) : AgentState M :=
  if a.greenlet_exists && !a.greenlet_dead then
    if a.message_queue.length ≥ a.max_queue_size then resume E a (some m)
    else resume E { a with message_queue := a.message_queue ++ [m] } none
  else a

/-- A finite sequence of deliveries through `receive_message`. -/
def deliver_all {M : Type} (E : Env M) (ms : List M) (a : AgentState M) : AgentState M :=
  ms.foldl (receive_message E) a

/-- The messages a hand-off value contributes to the handled trace:
the `None` sentinel and falsy messages are skipped by `if message:`. -/
def handoffList {M : Type} (t : M → Bool) : Option M → List M
  | none => []
  | some m => if t m then [m] else []

/-- Python `agent_greenlet and not agent_greenlet.dead`. -/
def agentAlive {M : Type} (a : AgentState M) : Bool :=
  a.greenlet_exists && !a.greenlet_dead

/- Python dict (insertion-ordered, unique keys) as an association list. -/

/-- Dict lookup. -/
def dictGet {A : Type} : List (String × A) → String → Option A
  | [], _ => none
  | (k, v) :: rest, key => if k = key then some v else dictGet rest key

/-- Dict store `d[key] = val`: replaces in place or appends. -/
def dictInsert {A : Type} : List (String × A) → String → A → List (String × A)
  | [], key, val => [(key, val)]
  | (k, v) :: rest, key, val =>
    if k = key then (k, val) :: rest else (k, v) :: dictInsert rest key val

/-- Dict delete `del d[key]` (keys are unique, so deleting the first
matching entry is deletion of the key). -/
def dictErase {A : Type} : List (String × A) → String → List (String × A)
  | [], _ => []
  | (k, v) :: rest, key => if k = key then rest else (k, v) :: dictErase rest key

/-- The dict's key list, in insertion order. -/
def dictKeys {A : Type} (d : List (String × A)) : List String :=
  d.map Prod.fst

/-- State of a `GreenletCoordinator`: capacity bound, registry dict, and
the round-robin rotation list `agent_queue`. -/
structure Coordinator (M : Type) where
  max_agents : Nat
  agents : List (String × AgentState M)
  agent_queue : List String
deriving DecidableEq

/-- Model of `GreenletCoordinator.__init__`. -/
def initCoordinator (M : Type) (max_agents : Nat) : Coordinator M :=
  ⟨max_agents, [], []⟩

/-- Model of `GreenletCoordinator.register_agent`.  The Boolean result is `false`
when the call raised `ValueError` (capacity reached); the raise happens
before any mutation.  On success the agent is inserted by id, its id
appended to the rotation, and the agent started (`reg` builds its
registration message from its id). -/
def register_agent {M : Type} (E : Env M) (reg : String → M)
    (c : Coordinator M) (ag : AgentState M) : Coordinator M × Bool :=
  if c.agents.length ≥ c.max_agents then (c, false)
  else
    ({ c with
        agents := dictInsert c.agents ag.agent_id (start E (reg ag.agent_id) ag),
        agent_queue := c.agent_queue ++ [ag.agent_id] }, true)

/-- Model of `GreenletCoordinator.unregister_agent`: no-op for an unknown id;
otherwise stops the agent, deletes it from the registry and removes the
first occurrence of its id from the rotation (guarded membership test,
`list.remove`). -/
def unregister_agent {M : Type} (E : Env M) (c : Coordinator M)
    (agent_id : String) : Coordinator M :=
  match dictGet c.agents agent_id with
  | none => c
  | some ag =>
    let _stopped := stop E ag
    { c with
        agents := dictErase c.agents agent_id,
        agent_queue :=
          if c.agent_queue.contains agent_id then c.agent_queue.erase agent_id
          else c.agent_queue }

/-- Model of `GreenletCoordinator.route_message`: forward to the named agent's
`receive_message`, or report undeliverable (a log line, not modelled). -/
def route_message {M : Type} (E : Env M) (c : Coordinator M)
    (agent_id : String) (m : M) : Coordinator M :=
  match dictGet c.agents agent_id with
  | some ag =>
    { c with agents := dictInsert c.agents agent_id (receive_message E ag m) }
  | none => c

/-- Model of `GreenletCoordinator.schedule`: no-op on an empty rotation;
otherwise pops the head id, re-appends it at the tail unconditionally,
and resumes the agent with `None` only if it still exists and its
greenlet is alive. -/
def schedule {M : Type} (E : Env M) (c : Coordinator M) : Coordinator M :=
  match c.agent_queue with
  | [] => c
  | agent_id :: rest =>
    let q := rest ++ [agent_id]
    match dictGet c.agents agent_id with
    | some ag =>
      if ag.greenlet_exists && !ag.greenlet_dead then
        { c with agent_queue := q,
                 agents := dictInsert c.agents agent_id (resume E ag none) }
      else { c with agent_queue := q }
    | none => { c with agent_queue := q }

/-- Runs `n` consecutive `schedule()` ticks. -/
def scheduleN {M : Type} (E : Env M) : Nat → Coordinator M → Coordinator M
  | 0, c => c
  | n + 1, c => scheduleN E n (schedule E c)

/-- A sequence of `register_agent` calls; returns the final state and
the number of calls that returned successfully. -/
def regMany {M : Type} (E : Env M) (reg : String → M) :
    List (AgentState M) → Coordinator M → Coordinator M × Nat
  | [], c => (c, 0)
  | ag :: rest, c =>
    let r := register_agent E reg c ag
    let r2 := regMany E reg rest r.1
    (r2.1, r2.2 + (if r.2 then 1 else 0))

/-- One coordinator mutation: a registration or an unregistration. -/
inductive CoordOp (M : Type) where
  | reg (ag : AgentState M)
  | unreg (id : String)

/-- Run a sequence of coordinator mutations. -/
def runOps {M : Type} (E : Env M) (reg : String → M) :
    List (CoordOp M) → Coordinator M → Coordinator M
  | [], c => c
  | CoordOp.reg ag :: rest, c => runOps E reg rest (register_agent E reg c ag).1
  | CoordOp.unreg id :: rest, c => runOps E reg rest (unregister_agent E c id)

/-- Checks that every registration in the sequence uses an id not
currently in the registry (ids are unique within a registry, per the
data model). -/
def freshRun {M : Type} (E : Env M) (reg : String → M) :
    List (CoordOp M) → Coordinator M → Bool
  | [], _ => true
  | CoordOp.reg ag :: rest, c =>
    !(dictGet c.agents ag.agent_id).isSome &&
      freshRun E reg rest (register_agent E reg c ag).1
  | CoordOp.unreg id :: rest, c => freshRun E reg rest (unregister_agent E c id)

/-- The coordinator invariants named by the spec: registry and rotation
have equal size, the rotation has no duplicates and is exactly the
registry's key sequence, and the registry respects the bound. -/
def coordInv {M : Type} (c : Coordinator M) : Prop :=
  c.agents.length = c.agent_queue.length ∧
  c.agent_queue.Nodup ∧
  dictKeys c.agents = c.agent_queue ∧
  c.agents.length ≤ c.max_agents

/- Lemmas about the agent loop. -/

@[simp] theorem handleOne_message_queue {M : Type} (E : Env M) (a : AgentState M) (m : M) :
    (handleOne E a m).message_queue = a.message_queue := rfl

@[simp] theorem handleOne_handled {M : Type} (E : Env M) (a : AgentState M) (m : M) :
    (handleOne E a m).handled = a.handled ++ [m] := rfl

@[simp] theorem handleOne_running {M : Type} (E : Env M) (a : AgentState M) (m : M) :
    (handleOne E a m).running = (a.running && !(E.handler m).stops) := rfl

@[simp] theorem handleOne_errors {M : Type} (E : Env M) (a : AgentState M) (m : M) :
    (handleOne E a m).errors = a.errors + (if (E.handler m).raises then 1 else 0) := rfl

@[simp] theorem handleOne_greenlet_exists {M : Type} (E : Env M) (a : AgentState M) (m : M) :
    (handleOne E a m).greenlet_exists = a.greenlet_exists := rfl

@[simp] theorem handleOne_greenlet_dead {M : Type} (E : Env M) (a : AgentState M) (m : M) :
    (handleOne E a m).greenlet_dead = a.greenlet_dead := rfl

@[simp] theorem handleOne_max_queue_size {M : Type} (E : Env M) (a : AgentState M) (m : M) :
    (handleOne E a m).max_queue_size = a.max_queue_size := rfl

@[simp] theorem handleOne_messages_sent {M : Type} (E : Env M) (a : AgentState M) (m : M) :
    (handleOne E a m).messages_sent = a.messages_sent := rfl

@[simp] theorem handleOne_output {M : Type} (E : Env M) (a : AgentState M) (m : M) :
    (handleOne E a m).output = a.output := rfl

@[simp] theorem handleOne_agent_id {M : Type} (E : Env M) (a : AgentState M) (m : M) :
    (handleOne E a m).agent_id = a.agent_id := rfl

@[simp] theorem handleOne_resumes {M : Type} (E : Env M) (a : AgentState M) (m : M) :
    (handleOne E a m).resumes = a.resumes := rfl

theorem drainGo_resumes {M : Type} (E : Env M) (l : List M) (a : AgentState M) :
    (drainGo E l a).resumes = a.resumes := by
  induction l generalizing a with
  | nil => simp [drainGo]
  | cons m rest ih =>
    simp only [drainGo]
    split
    · rw [ih]
      simp
    · rfl

theorem loopStep_resumes {M : Type} (E : Env M) (a : AgentState M) :
    (loopStep E a).resumes = a.resumes := by
  simp only [loopStep]
  split
  · rw [drainGo_resumes]
  · rfl

theorem resume_resumes {M : Type} (E : Env M) (a : AgentState M) (v : Option M) :
    (resume E a v).resumes = a.resumes + 1 := by
  rcases v with _ | m
  · simp [resume, loopStep_resumes]
  · by_cases ht : E.truthy m = true
    · simp [resume, ht, loopStep_resumes]
    · simp [resume, ht, loopStep_resumes]

/-- Draining a queue of non-stopping messages from a running agent
handles them all in arrival order, empties the queue, and leaves the
running flag and the greenlet flags (and every field other than
`handled` and `errors`) unchanged. -/
theorem drainGo_spec {M : Type} (E : Env M) (l : List M) (a : AgentState M)
    (hrun : a.running = true) (hns : ∀ m ∈ l, (E.handler m).stops = false) :
    (drainGo E l a).message_queue = [] ∧
    (drainGo E l a).handled = a.handled ++ l ∧
    (drainGo E l a).running = true ∧
    (drainGo E l a).greenlet_exists = a.greenlet_exists ∧
    (drainGo E l a).greenlet_dead = a.greenlet_dead ∧
    (drainGo E l a).max_queue_size = a.max_queue_size ∧
    (drainGo E l a).messages_sent = a.messages_sent ∧
    (drainGo E l a).output = a.output ∧
    (drainGo E l a).agent_id = a.agent_id := by
  induction l generalizing a with
  | nil => simp [drainGo, hrun]
  | cons m rest ih =>
    have hm : (E.handler m).stops = false := hns m (List.mem_cons_self m rest)
    have hrest : ∀ x ∈ rest, (E.handler x).stops = false :=
      fun x hx => hns x (List.mem_cons_of_mem m hx)
    simp only [drainGo]
    rw [if_pos hrun]
    have ih' := ih (handleOne E { a with message_queue := rest } m)
      (by simp [hrun, hm]) hrest
    simpa using ih'

/-- One resume of a running agent with a hand-off carrying only
non-stopping messages (and a non-stopping queue): the hand-off message
(if truthy) is handled first, then the whole queue in arrival order;
the agent ends suspended (not dead) with an empty queue. -/
theorem resume_spec {M : Type} (E : Env M) (a : AgentState M) (v : Option M)
    (hrun : a.running = true)
    (hns : ∀ m ∈ handoffList E.truthy v ++ a.message_queue, (E.handler m).stops = false) :
    (resume E a v).message_queue = [] ∧
    (resume E a v).handled = a.handled ++ handoffList E.truthy v ++ a.message_queue ∧
    (resume E a v).running = true ∧
    (resume E a v).greenlet_exists = a.greenlet_exists ∧
    (resume E a v).greenlet_dead = a.greenlet_dead ∧
    (resume E a v).max_queue_size = a.max_queue_size := by
  rcases v with _ | m
  · simp only [handoffList, List.nil_append, List.append_nil] at hns ⊢
    simp only [resume, loopStep]
    rw [if_pos (by simp [hrun])]
    have h := drainGo_spec E a.message_queue { a with resumes := a.resumes + 1 }
      (by simp [hrun]) hns
    exact ⟨by simpa using h.1, by simpa using h.2.1, by simpa using h.2.2.1,
      by simpa using h.2.2.2.1, by simpa using h.2.2.2.2.1, by simpa using h.2.2.2.2.2.1⟩
  · by_cases ht : E.truthy m = true
    · simp only [handoffList, ht, if_true] at hns ⊢
      have hm : (E.handler m).stops = false := hns m (by simp)
      have hq : ∀ x ∈ a.message_queue, (E.handler x).stops = false :=
        fun x hx => hns x (by simp [hx])
      simp only [resume, ht, if_true, loopStep]
      have hstep : (handleOne E { a with resumes := a.resumes + 1 } m).running = true := by
        simp [hrun, hm]
      rw [if_pos hstep]
      have h := drainGo_spec E
        (handleOne E { a with resumes := a.resumes + 1 } m).message_queue
        (handleOne E { a with resumes := a.resumes + 1 } m) hstep
        (by simpa using hq)
      exact ⟨by simpa using h.1, by simpa using h.2.1, by simpa using h.2.2.1,
        by simpa using h.2.2.2.1, by simpa using h.2.2.2.2.1, by simpa using h.2.2.2.2.2.1⟩
    · have ht' : E.truthy m = false := by
        cases hb : E.truthy m
        · rfl
        · exact absurd hb ht
      simp only [handoffList, ht', Bool.false_eq_true, if_false, List.nil_append,
        List.append_nil] at hns ⊢
      simp only [resume, ht', Bool.false_eq_true, if_false, loopStep]
      rw [if_pos (by simp [hrun])]
      have h := drainGo_spec E a.message_queue { a with resumes := a.resumes + 1 }
        (by simp [hrun]) hns
      exact ⟨by simpa using h.1, by simpa using h.2.1, by simpa using h.2.2.1,
        by simpa using h.2.2.2.1, by simpa using h.2.2.2.2.1, by simpa using h.2.2.2.2.2.1⟩

/-- Delivery on a live agent with spare queue capacity: the message is
appended and the resumed drain handles the backlog and then the new
message; no truthiness condition is involved on this path. -/
theorem receive_message_spare {M : Type} (E : Env M) (a : AgentState M) (m : M)
    (hex : a.greenlet_exists = true) (hnd : a.greenlet_dead = false)
    (hrun : a.running = true)
    (hns : ∀ x ∈ a.message_queue ++ [m], (E.handler x).stops = false)
    (hlen : a.message_queue.length < a.max_queue_size) :
    (receive_message E a m).message_queue = [] ∧
    (receive_message E a m).handled = a.handled ++ a.message_queue ++ [m] ∧
    (receive_message E a m).running = true ∧
    (receive_message E a m).greenlet_exists = true ∧
    (receive_message E a m).greenlet_dead = false ∧
    (receive_message E a m).max_queue_size = a.max_queue_size := by
  simp only [receive_message]
  rw [if_pos (by simp [hex, hnd]), if_neg (not_le.mpr hlen)]
  have h := resume_spec E { a with message_queue := a.message_queue ++ [m] } none
    (by simp [hrun]) (by simpa [handoffList] using hns)
  exact ⟨by simpa using h.1, by simpa [List.append_assoc] using h.2.1, by simpa using h.2.2.1,
    by simpa [hex] using h.2.2.2.1, by simpa [hnd] using h.2.2.2.2.1,
    by simpa using h.2.2.2.2.2⟩

/-- Delivery on a live agent whose queue is at capacity takes the
bypass path: the call is exactly a resume with the message as hand-off
value. -/
theorem receive_message_bypass {M : Type} (E : Env M) (a : AgentState M) (m : M)
    (hex : a.greenlet_exists = true) (hnd : a.greenlet_dead = false)
    (hfull : a.message_queue.length ≥ a.max_queue_size) :
    receive_message E a m = resume E a (some m) := by
  simp [receive_message, hex, hnd, hfull]

/-- One delivery on a live running agent (either path), for a truthy
message and a stop-free handler: the queue ends empty and the handled
trace is extended by a permutation of the old backlog plus the new
message. -/
theorem receive_message_spec {M : Type} (E : Env M) (a : AgentState M) (m : M)
    (hex : a.greenlet_exists = true) (hnd : a.greenlet_dead = false)
    (hrun : a.running = true)
    (hns : ∀ x, (E.handler x).stops = false) (ht : E.truthy m = true) :
    ∃ ext, ext.Perm (a.message_queue ++ [m]) ∧
      (receive_message E a m).message_queue = [] ∧
      (receive_message E a m).handled = a.handled ++ ext ∧
      (receive_message E a m).running = true ∧
      (receive_message E a m).greenlet_exists = true ∧
      (receive_message E a m).greenlet_dead = false ∧
      (receive_message E a m).max_queue_size = a.max_queue_size := by
  by_cases hfull : a.message_queue.length ≥ a.max_queue_size
  · rw [receive_message_bypass E a m hex hnd hfull]
    have h := resume_spec E a (some m) hrun (fun x _ => hns x)
    refine ⟨m :: a.message_queue, ?_, h.1, ?_, h.2.2.1,
      by rw [h.2.2.2.1]; exact hex, by rw [h.2.2.2.2.1]; exact hnd, h.2.2.2.2.2⟩
    · simpa using (@List.perm_append_comm M [m] a.message_queue)
    · rw [h.2.1]
      simp [handoffList, ht]
  · have h := receive_message_spare E a m hex hnd hrun
      (fun x _ => hns x) (lt_of_not_le hfull)
    exact ⟨a.message_queue ++ [m], List.Perm.refl _, h.1,
      by rw [h.2.1, List.append_assoc], h.2.2.1, h.2.2.2.1, h.2.2.2.2.1, h.2.2.2.2.2⟩

/-- A nonempty sequence of deliveries of truthy messages on a live
running agent with a stop-free handler: the final queue is empty and
the handled trace gains a permutation of the old backlog plus all the
delivered messages — each delivered message exactly once. -/
theorem deliver_all_go {M : Type} (E : Env M) (rest : List M) :
    ∀ (m : M) (a : AgentState M),
    a.greenlet_exists = true → a.greenlet_dead = false → a.running = true →
    (∀ x, (E.handler x).stops = false) → (∀ x ∈ m :: rest, E.truthy x = true) →
    ∃ ext, ext.Perm (a.message_queue ++ m :: rest) ∧
      (deliver_all E (m :: rest) a).message_queue = [] ∧
      (deliver_all E (m :: rest) a).handled = a.handled ++ ext ∧
      (deliver_all E (m :: rest) a).running = true ∧
      (deliver_all E (m :: rest) a).greenlet_exists = true ∧
      (deliver_all E (m :: rest) a).greenlet_dead = false ∧
      (deliver_all E (m :: rest) a).max_queue_size = a.max_queue_size := by
  induction rest with
  | nil =>
    intro m a hex hnd hrun hns htr
    have h := receive_message_spec E a m hex hnd hrun hns (htr m (by simp))
    simpa [deliver_all] using h
  | cons r rest' ih =>
    intro m a hex hnd hrun hns htr
    obtain ⟨ext1, hp1, hq1, hh1, hr1, he1, hd1, hm1⟩ :=
      receive_message_spec E a m hex hnd hrun hns (htr m (by simp))
    have htr' : ∀ x ∈ r :: rest', E.truthy x = true :=
      fun x hx => htr x (List.mem_cons_of_mem m hx)
    obtain ⟨ext2, hp2, hq2, hh2, hr2, he2, hd2, hm2⟩ :=
      ih r (receive_message E a m) he1 hd1 hr1 hns htr'
    have hstep : deliver_all E (m :: r :: rest') a
        = deliver_all E (r :: rest') (receive_message E a m) := by
      simp [deliver_all]
    rw [hq1, List.nil_append] at hp2
    refine ⟨ext1 ++ ext2, ?_, ?_, ?_, ?_, ?_, ?_, ?_⟩
    · have hp := List.Perm.append hp1 hp2
      simpa [List.append_assoc] using hp
    · rw [hstep]; exact hq2
    · rw [hstep, hh2, hh1, List.append_assoc]
    · rw [hstep]; exact hr2
    · rw [hstep]; exact he2
    · rw [hstep]; exact hd2
    · rw [hstep, hm2, hm1]

/-- FIFO deliveries on an idle (empty-queue) live running agent: each
delivery takes the queue path and the handled trace extends by exactly
the delivered messages in arrival order. -/
theorem deliver_all_fifo {M : Type} (E : Env M) (ms : List M) :
    ∀ (a : AgentState M),
    a.greenlet_exists = true → a.greenlet_dead = false → a.running = true →
    (∀ x ∈ ms, (E.handler x).stops = false) → a.message_queue = [] →
    0 < a.max_queue_size →
    (deliver_all E ms a).message_queue = [] ∧
    (deliver_all E ms a).handled = a.handled ++ ms ∧
    (deliver_all E ms a).running = true ∧
    (deliver_all E ms a).greenlet_exists = true ∧
    (deliver_all E ms a).greenlet_dead = false ∧
    (deliver_all E ms a).max_queue_size = a.max_queue_size := by
  induction ms with
  | nil =>
    intro a hex hnd hrun hns hq hcap
    simp [deliver_all, hq, hex, hnd, hrun]
  | cons m rest ih =>
    intro a hex hnd hrun hns hq hcap
    have hns1 : ∀ x ∈ a.message_queue ++ [m], (E.handler x).stops = false := by
      rw [hq]
      intro x hx
      simp at hx
      subst hx
      exact hns _ (by simp)
    obtain ⟨hq1, hh1, hr1, he1, hd1, hm1⟩ :=
      receive_message_spare E a m hex hnd hrun hns1 (by rw [hq]; simpa using hcap)
    have hstep : deliver_all E (m :: rest) a
        = deliver_all E rest (receive_message E a m) := by
      simp [deliver_all]
    obtain ⟨hq2, hh2, hr2, he2, hd2, hm2⟩ :=
      ih (receive_message E a m) he1 hd1 hr1
        (fun x hx => hns x (List.mem_cons_of_mem m hx)) hq1 (by rw [hm1]; exact hcap)
    rw [hstep]
    refine ⟨hq2, ?_, hr2, he2, hd2, by rw [hm2, hm1]⟩
    rw [hh2, hh1, hq]
    simp

/- Concrete instances for witnesses and counterexamples.  Messages are
coded as naturals; `0` plays the role of the empty dict, which is falsy
in Python. -/

/-- Benign environment: handler never raises nor stops, every message
truthy, serialization always succeeds. -/
def envOk : Env Nat := ⟨fun _ => ⟨false, false⟩, fun _ => true, fun _ => some "x"⟩

/-- Environment with Python dict truthiness: message `0` (the empty
dict) is falsy. -/
def envPy : Env Nat := ⟨fun _ => ⟨false, false⟩, fun m => m != 0, fun _ => some "x"⟩

/-- Environment whose handler raises on message `7`. -/
def envRaise : Env Nat := ⟨fun m => ⟨m == 7, false⟩, fun _ => true, fun _ => some "x"⟩

/-- Environment whose serializer fails on message `0`. -/
def envSerFail : Env Nat :=
  ⟨fun _ => ⟨false, false⟩, fun _ => true, fun m => if m == 0 then none else some "x"⟩

/-- A started, idle agent: running, greenlet alive, empty queue,
capacity 3. -/
def agentIdle : AgentState Nat := ⟨"a", [], true, 3, [], true, false, 0, 0, [], [], 0⟩

/-- A started agent whose capacity-3 queue is full. -/
def agentFull : AgentState Nat := ⟨"a", [], true, 3, [1, 2, 3], true, false, 0, 0, [], [], 0⟩

/-- Claim C1 (amended: restricted to truthy messages — an empty dict is
falsy and is dropped by `if message:` on the bypass path, see the
counterexample).  For a started, not stopped agent: a delivery with the
queue at capacity bypasses the queue and is exactly a resume with the
message as hand-off, handled immediately (ahead of the queued backlog);
and every finite nonempty delivery sequence of truthy messages leaves
the queue empty with each delivered message observed by
`handle_message` exactly once (the handled trace extends by a
permutation of the backlog plus the delivered messages); the sender is
never blocked (`receive_message` always returns). -/
theorem C1_overflow_bypass_exactly_once {M : Type} (E : Env M) (a : AgentState M)
    (m : M) (ms : List M)
    (hex : a.greenlet_exists = true) (hnd : a.greenlet_dead = false)
    (hrun : a.running = true) (hns : ∀ x, (E.handler x).stops = false) :
    (a.message_queue.length ≥ a.max_queue_size →
      receive_message E a m = resume E a (some m)) ∧
    (a.message_queue.length ≥ a.max_queue_size → E.truthy m = true →
      (receive_message E a m).handled = a.handled ++ [m] ++ a.message_queue) ∧
    (ms ≠ [] → (∀ x ∈ ms, E.truthy x = true) →
      (deliver_all E ms a).message_queue = [] ∧
      (deliver_all E ms a).handled.Perm (a.handled ++ a.message_queue ++ ms)) := by
  refine ⟨fun hfull => receive_message_bypass E a m hex hnd hfull, ?_, ?_⟩
  · intro hfull ht
    rw [receive_message_bypass E a m hex hnd hfull]
    have h := resume_spec E a (some m) hrun (fun x _ => hns x)
    rw [h.2.1]
    simp [handoffList, ht]
  · intro hne htr
    rcases ms with _ | ⟨m1, rest⟩
    · exact absurd rfl hne
    · obtain ⟨ext, hp, hq, hh, _, _, _, _⟩ := deliver_all_go E rest m1 a hex hnd hrun hns htr
      refine ⟨hq, ?_⟩
      rw [hh, List.append_assoc]
      exact List.Perm.append_left a.handled hp

/-- Witness for C1: a 4th message delivered into a full 3-capacity
queue is bypassed, handled immediately, and all four messages are
observed exactly once. -/
theorem C1_witness :
    agentFull.message_queue.length ≥ agentFull.max_queue_size ∧
    receive_message envOk agentFull 4 = resume envOk agentFull (some 4) ∧
    (receive_message envOk agentFull 4).handled = [4, 1, 2, 3] ∧
    (deliver_all envOk [4] agentFull).message_queue = [] ∧
    (deliver_all envOk [4] agentFull).handled.Perm [1, 2, 3, 4] := by
  have h := C1_overflow_bypass_exactly_once envOk agentFull 4 [4]
    rfl rfl rfl (fun _ => rfl)
  have h3 := h.2.2 (by decide) (fun x _ => rfl)
  refine ⟨by decide, h.1 (by decide), ?_, h3.1, ?_⟩
  · rw [h.2.1 (by decide) rfl]
    rfl
  · have := h3.2
    simpa [agentFull] using this

/-- Counterexample to C1 as stated: the hand-off value is tested with
Python truthiness (`if message:` in `_run`), so a falsy message (an
empty dict, coded `0`) delivered through the overflow bypass is dropped
without ever reaching `handle_message`: after the delivery the queue is
empty, the three backlogged messages were handled, and `0` was neither
handled nor queued. -/
theorem C1_counterexample :
    (receive_message envPy agentFull 0).message_queue = [] ∧
    (receive_message envPy agentFull 0).handled = [1, 2, 3] ∧
    List.count 0 (receive_message envPy agentFull 0).handled = 0 := by decide

/-- Claim C5: deliveries through the bounded queue (spare capacity
throughout: idle agent, positive capacity, so the queue never reaches
`max_queue_size`) are handled in exactly arrival (FIFO) order by the
subsequent drains. -/
theorem C5_fifo_order {M : Type} (E : Env M) (ms : List M) (a : AgentState M)
    (hex : a.greenlet_exists = true) (hnd : a.greenlet_dead = false)
    (hrun : a.running = true)
    (hns : ∀ x ∈ ms, (E.handler x).stops = false)
    (hq : a.message_queue = []) (hcap : 0 < a.max_queue_size) :
    (deliver_all E ms a).handled = a.handled ++ ms ∧
    (deliver_all E ms a).message_queue = [] := by
  have h := deliver_all_fifo E ms a hex hnd hrun hns hq hcap
  exact ⟨h.2.1, h.1⟩

/-- Witness for C5: with `max_queue_size = 3`, enqueueing m1, m2, m3
has `handle_message` invoked in order m1, m2, m3. -/
theorem C5_witness :
    agentIdle.message_queue = [] ∧ 0 < agentIdle.max_queue_size ∧
    (deliver_all envOk [1, 2, 3] agentIdle).handled = [1, 2, 3] ∧
    (deliver_all envOk [1, 2, 3] agentIdle).message_queue = [] := by
  have h := C5_fifo_order envOk [1, 2, 3] agentIdle rfl rfl rfl
    (fun x _ => rfl) rfl (by decide)
  exact ⟨rfl, by decide, by simpa [agentIdle] using h.1, h.2⟩

/-- Claim C6: on every resume of a running agent (no handled entry
invokes `stop()`), the loop drains the entire queue — invoking
`handle_message` once per queued entry, in arrival order, after the
hand-off message if one was carried — before yielding back to the
parent: at the yield point the queue is empty and the greenlet is still
alive (it suspended rather than died). -/
theorem C6_drain_before_yield {M : Type} (E : Env M) (a : AgentState M) (v : Option M)
    (hrun : a.running = true) (hnd : a.greenlet_dead = false)
    (hns : ∀ x ∈ handoffList E.truthy v ++ a.message_queue, (E.handler x).stops = false) :
    (resume E a v).message_queue = [] ∧
    (resume E a v).handled = a.handled ++ handoffList E.truthy v ++ a.message_queue ∧
    (resume E a v).greenlet_dead = false := by
  have h := resume_spec E a v hrun hns
  exact ⟨h.1, h.2.1, by rw [h.2.2.2.2.1]; exact hnd⟩

/-- Witness for C6: resuming an agent with backlog [1, 2] drains both
entries in order and leaves nothing queued at the yield point. -/
theorem C6_witness :
    (resume envOk ⟨"a", [], true, 3, [1, 2], true, false, 0, 0, [], [], 0⟩ none).message_queue
      = [] ∧
    (resume envOk ⟨"a", [], true, 3, [1, 2], true, false, 0, 0, [], [], 0⟩ none).handled
      = [1, 2] ∧
    (resume envOk ⟨"a", [], true, 3, [1, 2], true, false, 0, 0, [], [], 0⟩ none).greenlet_dead
      = false := by
  have h := C6_drain_before_yield envOk ⟨"a", [], true, 3, [1, 2], true, false, 0, 0, [], [], 0⟩
    none rfl rfl (fun x _ => rfl)
  exact ⟨h.1, by simpa [handoffList] using h.2.1, h.2.2⟩

/-- Claim C7: a message on which `handle_message` raises is caught at
the loop boundary on both paths — the queue-drain path (message
backlogged, resume with the `None` sentinel) and the overflow-bypass
path (message as hand-off value) — incrementing the error counter by
one; the loop neither dies nor stops (still running, greenlet alive)
and a subsequent delivery is handled normally. -/
theorem C7_handler_error_contained {M : Type} (E : Env M) (a : AgentState M) (m m' : M)
    (hex : a.greenlet_exists = true) (hnd : a.greenlet_dead = false)
    (hrun : a.running = true) (hq : a.message_queue = [])
    (hcap : 0 < a.max_queue_size)
    (hr : (E.handler m).raises = true) (ht : E.truthy m = true)
    (hns : ∀ x, (E.handler x).stops = false) :
    ((resume E { a with message_queue := [m] } none).errors = a.errors + 1 ∧
     (resume E { a with message_queue := [m] } none).handled = a.handled ++ [m] ∧
     (resume E { a with message_queue := [m] } none).running = true ∧
     (resume E { a with message_queue := [m] } none).greenlet_dead = false) ∧
    ((resume E a (some m)).errors = a.errors + 1 ∧
     (resume E a (some m)).handled = a.handled ++ [m] ∧
     (resume E a (some m)).running = true ∧
     (resume E a (some m)).greenlet_dead = false) ∧
    (receive_message E (resume E a (some m)) m').handled
      = (resume E a (some m)).handled ++ [m'] := by
  have hs : (E.handler m).stops = false := hns m
  refine ⟨?_, ?_, ?_⟩
  · constructor
    · simp [resume, loopStep, drainGo, hrun, hr, hs, hnd]
    · constructor
      · simp [resume, loopStep, drainGo, hrun, hr, hs, hnd]
      · constructor
        · simp [resume, loopStep, drainGo, hrun, hr, hs, hnd]
        · simp [resume, loopStep, drainGo, hrun, hr, hs, hnd]
  · refine ⟨?_, ?_, ?_, ?_⟩
    · simp [resume, loopStep, drainGo, ht, hrun, hr, hs, hnd, hq]
    · simp [resume, loopStep, drainGo, ht, hrun, hr, hs, hnd, hq]
    · simp [resume, loopStep, drainGo, ht, hrun, hr, hs, hnd, hq]
    · simp [resume, loopStep, drainGo, ht, hrun, hr, hs, hnd, hq]
  · have h := resume_spec E a (some m) hrun (fun x _ => hns x)
    have h4 := receive_message_spare E (resume E a (some m)) m'
      (by rw [h.2.2.2.1]; exact hex) (by rw [h.2.2.2.2.1]; exact hnd) h.2.2.1
      (by rw [h.1]; intro x hx; simpa using (hns x))
      (by rw [h.1, h.2.2.2.2.2]; simpa using hcap)
    rw [h4.2.1, h.1]
    simp

/-- Witness for C7: handler raising on message 7 increments `errors` on
both paths and message 1 is still handled afterwards. -/
theorem C7_witness :
    (envRaise.handler 7).raises = true ∧
    (resume envRaise { agentIdle with message_queue := [7] } none).errors = 1 ∧
    (resume envRaise { agentIdle with message_queue := [7] } none).running = true ∧
    (resume envRaise agentIdle (some 7)).errors = 1 ∧
    (resume envRaise agentIdle (some 7)).greenlet_dead = false ∧
    (receive_message envRaise (resume envRaise agentIdle (some 7)) 1).handled
      = (resume envRaise agentIdle (some 7)).handled ++ [1] := by
  have h := C7_handler_error_contained envRaise agentIdle 7 1 rfl rfl rfl rfl
    (by decide) rfl rfl (fun _ => rfl)
  exact ⟨rfl, by simpa [agentIdle] using h.1.1, h.1.2.2.1,
    by simpa [agentIdle] using h.2.1.1, h.2.1.2.2.2, h.2.2⟩

/-- Claim C8: `stop()` is idempotent on a started agent (the greenlet
was created): after one `stop()` the running flag is false and the
greenlet is finished; a second `stop()` is a no-op (and, being total,
raises nothing). -/
theorem C8_stop_idempotent {M : Type} (E : Env M) (a : AgentState M)
    (hex : a.greenlet_exists = true) :
    stop E (stop E a) = stop E a ∧
    (stop E a).running = false ∧
    (stop E a).greenlet_dead = true := by
  cases a with
  | mk id caps run mqs q ex dead sent errs out hand res =>
    simp only [AgentState.greenlet_exists] at hex
    subst hex
    cases dead
    · simp [stop, resume, loopStep]
    · simp [stop, resume, loopStep]

/-- Witness for C8: two consecutive stops of a started agent; the
second is a no-op and the agent ends Stopped with a finished greenlet. -/
theorem C8_witness :
    agentIdle.greenlet_exists = true ∧
    stop envOk (stop envOk agentIdle) = stop envOk agentIdle ∧
    (stop envOk agentIdle).running = false ∧
    (stop envOk agentIdle).greenlet_dead = true := by
  have h := C8_stop_idempotent envOk agentIdle rfl
  exact ⟨rfl, h.1, h.2.1, h.2.2⟩

/-- Claim C9: `receive_message` on an agent whose greenlet was never
created (`start()` not called) or whose greenlet is dead returns with
the state completely unchanged — nothing queued, no handler invoked,
no counter changed, the message silently discarded. -/
theorem C9_discard_without_greenlet {M : Type} (E : Env M) (a : AgentState M) (m : M)
    (h : a.greenlet_exists = false ∨ a.greenlet_dead = true) :
    receive_message E a m = a := by
  rcases h with h | h <;> simp [receive_message, h]

/-- Witness for C9: delivering to a never-started agent changes
nothing. -/
theorem C9_witness :
    (initAgent Nat "a" [] 3).greenlet_exists = false ∧
    receive_message envOk (initAgent Nat "a" [] 3) 5 = initAgent Nat "a" [] 3 := by
  exact ⟨rfl, C9_discard_without_greenlet envOk (initAgent Nat "a" [] 3) 5 (Or.inl rfl)⟩

/-- Claim C10: `_send_message` increments `messages_sent` before
attempting serialization, so it counts attempted sends: a reply whose
serialization fails still increments `messages_sent` (and the error
counter) while writing no line, so `messages_sent` then differs from
the number of lines written to the output sink. -/
theorem C10_sent_counts_attempts {M : Type} (E : Env M) (a : AgentState M) (m : M)
    (hser : E.ser m = none) :
    (send_message E a m).messages_sent = a.messages_sent + 1 ∧
    (send_message E a m).errors = a.errors + 1 ∧
    (send_message E a m).output = a.output ∧
    (a.messages_sent = a.output.length →
      (send_message E a m).messages_sent ≠ (send_message E a m).output.length) := by
  refine ⟨by simp [send_message, hser], by simp [send_message, hser],
    by simp [send_message, hser], ?_⟩
  intro heq
  simp [send_message, hser, heq]

/-- Witness for C10: a failing serialization bumps `messages_sent` and
`errors`, writes nothing, and desynchronizes `messages_sent` from the
line count. -/
theorem C10_witness :
    envSerFail.ser 0 = none ∧
    (send_message envSerFail agentIdle 0).messages_sent = 1 ∧
    (send_message envSerFail agentIdle 0).errors = 1 ∧
    (send_message envSerFail agentIdle 0).output = [] ∧
    (send_message envSerFail agentIdle 0).messages_sent
      ≠ (send_message envSerFail agentIdle 0).output.length := by
  have h := C10_sent_counts_attempts envSerFail agentIdle 0 rfl
  exact ⟨rfl, by simpa [agentIdle] using h.1, by simpa [agentIdle] using h.2.1,
    by simpa [agentIdle] using h.2.2.1, h.2.2.2 rfl⟩

/- Lemmas about the dict embedding. -/

theorem dictGet_dictInsert_self {A : Type} (d : List (String × A)) (k : String) (v : A) :
    dictGet (dictInsert d k v) k = some v := by
  induction d with
  | nil => simp [dictInsert, dictGet]
  | cons p rest ih =>
    rcases p with ⟨k', v'⟩
    by_cases h : k' = k
    · subst h
      simp [dictInsert, dictGet]
    · simp [dictInsert, dictGet, h, ih]

theorem dictGet_dictInsert_ne {A : Type} (d : List (String × A)) (k k' : String) (v : A)
    (h : k' ≠ k) : dictGet (dictInsert d k v) k' = dictGet d k' := by
  induction d with
  | nil => simp [dictInsert, dictGet, (Ne.symm h : k ≠ k')]
  | cons p rest ih =>
    rcases p with ⟨k'', v''⟩
    by_cases hk : k'' = k
    · subst hk
      simp [dictInsert, dictGet, (Ne.symm h : k'' ≠ k')]
    · simp only [dictInsert, hk, if_false, dictGet]
      rw [ih]

theorem dictGet_eq_none_iff {A : Type} (d : List (String × A)) (k : String) :
    dictGet d k = none ↔ k ∉ dictKeys d := by
  induction d with
  | nil => simp [dictGet, dictKeys]
  | cons p rest ih =>
    rcases p with ⟨k', v'⟩
    by_cases h : k' = k
    · subst h
      simp [dictGet, dictKeys]
    · rw [dictGet, if_neg h, ih]
      simp only [dictKeys, List.map_cons, List.mem_cons]
      constructor
      · intro hnm hor
        rcases hor with hor | hor
        · exact h hor.symm
        · exact hnm hor
      · intro hnm hmem
        exact hnm (Or.inr hmem)

theorem dictGet_some_mem {A : Type} (d : List (String × A)) (k : String) (v : A)
    (h : dictGet d k = some v) : k ∈ dictKeys d := by
  by_contra hmem
  rw [← dictGet_eq_none_iff] at hmem
  rw [hmem] at h
  exact Option.noConfusion h

theorem dictInsert_length_fresh {A : Type} (d : List (String × A)) (k : String) (v : A)
    (h : dictGet d k = none) : (dictInsert d k v).length = d.length + 1 := by
  induction d with
  | nil => simp [dictInsert]
  | cons p rest ih =>
    rcases p with ⟨k', v'⟩
    by_cases hk : k' = k
    · subst hk
      simp [dictGet] at h
    · simp only [dictGet, hk, if_false] at h
      simp [dictInsert, hk, ih h]

theorem dictKeys_dictInsert_fresh {A : Type} (d : List (String × A)) (k : String) (v : A)
    (h : dictGet d k = none) : dictKeys (dictInsert d k v) = dictKeys d ++ [k] := by
  induction d with
  | nil => simp [dictInsert, dictKeys]
  | cons p rest ih =>
    rcases p with ⟨k', v'⟩
    by_cases hk : k' = k
    · subst hk
      simp [dictGet] at h
    · simp only [dictGet, hk, if_false] at h
      have ih' := ih h
      simp only [dictKeys] at ih' ⊢
      simp [dictInsert, hk, ih']

theorem dictKeys_dictErase {A : Type} (d : List (String × A)) (k : String) :
    dictKeys (dictErase d k) = (dictKeys d).erase k := by
  induction d with
  | nil => simp [dictErase, dictKeys]
  | cons p rest ih =>
    rcases p with ⟨k', v'⟩
    by_cases hk : k' = k
    · subst hk
      simp [dictErase, dictKeys, List.erase_cons_head]
    · have ih' := ih
      simp only [dictKeys] at ih' ⊢
      simp only [dictErase, hk, if_false, List.map_cons]
      rw [ih', List.erase_cons_tail (not_beq_of_ne hk)]

theorem dictErase_length_le {A : Type} (d : List (String × A)) (k : String) :
    (dictErase d k).length ≤ d.length := by
  induction d with
  | nil => simp [dictErase]
  | cons p rest ih =>
    rcases p with ⟨k', v'⟩
    by_cases hk : k' = k
    · subst hk
      simp [dictErase]
    · simp only [dictErase, hk, if_false, List.length_cons]
      omega

/-- A run of `register_agent` calls over agents with pairwise-distinct,
fresh ids grows the registry by exactly the number of successful calls. -/
theorem regMany_count {M : Type} (E : Env M) (reg : String → M) :
    ∀ (ags : List (AgentState M)) (c : Coordinator M),
    (ags.map AgentState.agent_id).Nodup →
    (∀ ag ∈ ags, dictGet c.agents ag.agent_id = none) →
    (regMany E reg ags c).1.agents.length = c.agents.length + (regMany E reg ags c).2 := by
  intro ags
  induction ags with
  | nil =>
    intro c _ _
    simp [regMany]
  | cons ag rest ih =>
    intro c hnd hfresh
    rw [List.map_cons, List.nodup_cons] at hnd
    simp only [regMany]
    by_cases hcap : c.agents.length ≥ c.max_agents
    · have hreg : register_agent E reg c ag = (c, false) := by
        simp [register_agent, hcap]
      rw [hreg]
      have h := ih c hnd.2 (fun x hx => hfresh x (List.mem_cons_of_mem ag hx))
      simp only [if_false, Bool.false_eq_true]
      omega
    · have hfr : dictGet c.agents ag.agent_id = none := hfresh ag (by simp)
      have hreg : register_agent E reg c ag
          = ({ c with
                agents := dictInsert c.agents ag.agent_id (start E (reg ag.agent_id) ag),
                agent_queue := c.agent_queue ++ [ag.agent_id] }, true) := by
        simp [register_agent, hcap]
      rw [hreg]
      have hfresh' : ∀ x ∈ rest,
          dictGet (dictInsert c.agents ag.agent_id (start E (reg ag.agent_id) ag))
            x.agent_id = none := by
        intro x hx
        rw [dictGet_dictInsert_ne]
        · exact hfresh x (List.mem_cons_of_mem ag hx)
        · intro hEq
          exact hnd.1 (hEq ▸ List.mem_map_of_mem AgentState.agent_id hx)
      have h := ih { c with
          agents := dictInsert c.agents ag.agent_id (start E (reg ag.agent_id) ag),
          agent_queue := c.agent_queue ++ [ag.agent_id] } hnd.2 (by simpa using hfresh')
      have hlen : (dictInsert c.agents ag.agent_id (start E (reg ag.agent_id) ag)).length
          = c.agents.length + 1 := dictInsert_length_fresh _ _ _ hfr
      simp at h ⊢
      omega

/-- Claim C2 (amended: for the size-equals-successes part, the
registered agents must carry pairwise-distinct ids — re-registering an
id already present overwrites the registry entry while still appending
to the rotation, see the counterexample).  A `register_agent` call on a
coordinator already at capacity fails (the Boolean result models the
raised ValueError) and leaves the whole coordinator state exactly as it
was; and from a fresh coordinator, the registry size equals the number
of successful calls. -/
theorem C2_capacity_error_and_count {M : Type} (E : Env M) (reg : String → M)
    (ags : List (AgentState M)) (bound : Nat)
    (hnd : (ags.map AgentState.agent_id).Nodup) :
    (∀ (c : Coordinator M) (ag : AgentState M), c.agents.length ≥ c.max_agents →
      register_agent E reg c ag = (c, false)) ∧
    (regMany E reg ags (initCoordinator M bound)).1.agents.length
      = (regMany E reg ags (initCoordinator M bound)).2 := by
  refine ⟨fun c ag hcap => by simp [register_agent, hcap], ?_⟩
  have h := regMany_count E reg ags (initCoordinator M bound) hnd (fun ag _ => rfl)
  simpa [initCoordinator] using h

/-- Witness for C2: two distinct-id registrations into a bound-2
coordinator both succeed and the registry holds 2; a further
registration on a full coordinator fails and changes nothing. -/
theorem C2_witness :
    (([initAgent Nat "a" [] 3, initAgent Nat "b" [] 3].map AgentState.agent_id)).Nodup ∧
    (regMany envOk (fun _ => 1) [initAgent Nat "a" [] 3, initAgent Nat "b" [] 3]
      (initCoordinator Nat 2)).1.agents.length
      = (regMany envOk (fun _ => 1) [initAgent Nat "a" [] 3, initAgent Nat "b" [] 3]
          (initCoordinator Nat 2)).2 ∧
    register_agent envOk (fun _ => 1) ⟨1, [("a", agentIdle)], ["a"]⟩
      (initAgent Nat "b" [] 3) = (⟨1, [("a", agentIdle)], ["a"]⟩, false) := by
  have h := C2_capacity_error_and_count envOk (fun _ => 1)
    [initAgent Nat "a" [] 3, initAgent Nat "b" [] 3] 2 (by decide)
  exact ⟨by decide, h.2, h.1 ⟨1, [("a", agentIdle)], ["a"]⟩ (initAgent Nat "b" [] 3)
    (by decide)⟩

/-- Counterexample to C2 as stated: registering the same id "a" twice
into a bound-2 coordinator yields two successful calls but a registry
of size 1 (the dict entry is overwritten). -/
theorem C2_counterexample :
    (regMany envOk (fun _ => 1) [initAgent Nat "a" [] 3, initAgent Nat "a" [] 3]
      (initCoordinator Nat 2)).2 = 2 ∧
    (regMany envOk (fun _ => 1) [initAgent Nat "a" [] 3, initAgent Nat "a" [] 3]
      (initCoordinator Nat 2)).1.agents.length = 1 := by decide

/-- Registration with a fresh id preserves the coordinator
invariants. -/
theorem register_agent_inv {M : Type} (E : Env M) (reg : String → M)
    (c : Coordinator M) (ag : AgentState M)
    (hkeys : dictKeys c.agents = c.agent_queue) (hnd : c.agent_queue.Nodup)
    (hb : c.agents.length ≤ c.max_agents)
    (hfr : dictGet c.agents ag.agent_id = none) :
    dictKeys (register_agent E reg c ag).1.agents
      = (register_agent E reg c ag).1.agent_queue ∧
    (register_agent E reg c ag).1.agent_queue.Nodup ∧
    (register_agent E reg c ag).1.agents.length
      ≤ (register_agent E reg c ag).1.max_agents := by
  by_cases hcap : c.agents.length ≥ c.max_agents
  · have hreg : register_agent E reg c ag = (c, false) := by
      simp [register_agent, hcap]
    rw [hreg]
    exact ⟨hkeys, hnd, hb⟩
  · have hreg : register_agent E reg c ag
        = ({ c with
              agents := dictInsert c.agents ag.agent_id (start E (reg ag.agent_id) ag),
              agent_queue := c.agent_queue ++ [ag.agent_id] }, true) := by
      simp [register_agent, hcap]
    rw [hreg]
    have hnotmem : ag.agent_id ∉ c.agent_queue := by
      rw [← hkeys]
      exact (dictGet_eq_none_iff _ _).mp hfr
    refine ⟨?_, ?_, ?_⟩
    · simp only
      rw [dictKeys_dictInsert_fresh _ _ _ hfr, hkeys]
    · simp only
      have hp : (c.agent_queue ++ [ag.agent_id]).Perm (ag.agent_id :: c.agent_queue) := by
        simp [List.perm_append_comm]
      exact (List.Perm.nodup_iff hp).mpr (List.nodup_cons.mpr ⟨hnotmem, hnd⟩)
    · simp only
      rw [dictInsert_length_fresh _ _ _ hfr]
      omega

/-- Unregistration preserves the coordinator invariants. -/
theorem unregister_agent_inv {M : Type} (E : Env M)
    (c : Coordinator M) (agent_id : String)
    (hkeys : dictKeys c.agents = c.agent_queue) (hnd : c.agent_queue.Nodup)
    (hb : c.agents.length ≤ c.max_agents) :
    dictKeys (unregister_agent E c agent_id).agents
      = (unregister_agent E c agent_id).agent_queue ∧
    (unregister_agent E c agent_id).agent_queue.Nodup ∧
    (unregister_agent E c agent_id).agents.length
      ≤ (unregister_agent E c agent_id).max_agents := by
  rcases hget : dictGet c.agents agent_id with _ | ag
  · simp only [unregister_agent, hget]
    exact ⟨hkeys, hnd, hb⟩
  · have hmem : agent_id ∈ c.agent_queue := hkeys ▸ dictGet_some_mem _ _ _ hget
    have hcont : c.agent_queue.contains agent_id = true :=
      List.elem_eq_true_of_mem hmem
    simp only [unregister_agent, hget, hcont, if_true]
    refine ⟨?_, ?_, ?_⟩
    · rw [dictKeys_dictErase, hkeys]
    · exact hnd.erase agent_id
    · exact le_trans (dictErase_length_le _ _) hb

/-- Every run of registrations (with fresh ids) and unregistrations
preserves the coordinator invariants. -/
theorem runOps_inv {M : Type} (E : Env M) (reg : String → M) :
    ∀ (ops : List (CoordOp M)) (c : Coordinator M),
    dictKeys c.agents = c.agent_queue → c.agent_queue.Nodup →
    c.agents.length ≤ c.max_agents →
    freshRun E reg ops c = true →
    dictKeys (runOps E reg ops c).agents = (runOps E reg ops c).agent_queue ∧
    (runOps E reg ops c).agent_queue.Nodup ∧
    (runOps E reg ops c).agents.length ≤ (runOps E reg ops c).max_agents := by
  intro ops
  induction ops with
  | nil =>
    intro c h1 h2 h3 _
    exact ⟨h1, h2, h3⟩
  | cons op rest ih =>
    intro c h1 h2 h3 hfr
    cases op with
    | reg ag =>
      rw [freshRun, Bool.and_eq_true] at hfr
      have hfr0 : dictGet c.agents ag.agent_id = none := by
        rcases hh : dictGet c.agents ag.agent_id with _ | v
        · rfl
        · rw [hh] at hfr
          simp at hfr
      obtain ⟨ha, hb', hc⟩ := register_agent_inv E reg c ag h1 h2 h3 hfr0
      exact ih (register_agent E reg c ag).1 ha hb' hc hfr.2
    | unreg agent_id =>
      rw [freshRun] at hfr
      obtain ⟨ha, hb', hc⟩ := unregister_agent_inv E c agent_id h1 h2 h3
      exact ih (unregister_agent E c agent_id) ha hb' hc hfr

/-- Claim C3 (amended: restricted to runs in which no `register_agent`
call reuses an id already present in the registry — re-registering a
present id breaks the invariants, see the counterexample).  Every state
reached from the initial empty coordinator by such a sequence of
`register_agent`/`unregister_agent` calls satisfies the invariants:
registry and rotation have equal size, the rotation has no duplicates
and is exactly the registry's key sequence, and the registry respects
the bound. -/
theorem C3_reachable_invariants {M : Type} (E : Env M) (reg : String → M)
    (ops : List (CoordOp M)) (bound : Nat)
    (hfr : freshRun E reg ops (initCoordinator M bound) = true) :
    coordInv (runOps E reg ops (initCoordinator M bound)) := by
  obtain ⟨h1, h2, h3⟩ := runOps_inv E reg ops (initCoordinator M bound)
    rfl (by simp [initCoordinator]) (by simp [initCoordinator]) hfr
  refine ⟨?_, h2, h1, h3⟩
  rw [← h1]
  simp [dictKeys]

/-- Witness for C3: register "a" and "b", unregister "a"; the resulting
state satisfies all the invariants. -/
theorem C3_witness :
    freshRun envOk (fun _ => 1)
      [CoordOp.reg (initAgent Nat "a" [] 3), CoordOp.reg (initAgent Nat "b" [] 3),
        CoordOp.unreg "a"] (initCoordinator Nat 2) = true ∧
    coordInv (runOps envOk (fun _ => 1)
      [CoordOp.reg (initAgent Nat "a" [] 3), CoordOp.reg (initAgent Nat "b" [] 3),
        CoordOp.unreg "a"] (initCoordinator Nat 2)) := by
  refine ⟨by decide, C3_reachable_invariants envOk (fun _ => 1) _ 2 (by decide)⟩

/-- Counterexample to C3 as stated: registering the id "a" twice (a
perfectly legal call sequence) reaches a state where the registry holds
1 agent but the rotation holds two copies of "a" — the size equality
and the no-duplicates invariant both fail. -/
theorem C3_counterexample :
    (runOps envOk (fun _ => 1)
      [CoordOp.reg (initAgent Nat "a" [] 3), CoordOp.reg (initAgent Nat "a" [] 3)]
      (initCoordinator Nat 2)).agents.length = 1 ∧
    (runOps envOk (fun _ => 1)
      [CoordOp.reg (initAgent Nat "a" [] 3), CoordOp.reg (initAgent Nat "a" [] 3)]
      (initCoordinator Nat 2)).agent_queue = ["a", "a"] ∧
    ¬ (runOps envOk (fun _ => 1)
      [CoordOp.reg (initAgent Nat "a" [] 3), CoordOp.reg (initAgent Nat "a" [] 3)]
      (initCoordinator Nat 2)).agent_queue.Nodup := by decide

/-- Scheduling pops the head id and re-appends it at the tail
unconditionally — whatever the state of the named agent. -/
theorem schedule_rotate {M : Type} (E : Env M) (c : Coordinator M)
    (agent_id : String) (rest : List String) (h : c.agent_queue = agent_id :: rest) :
    (schedule E c).agent_queue = rest ++ [agent_id] := by
  simp only [schedule, h]
  rcases hget : dictGet c.agents agent_id with _ | ag
  · simp [hget]
  · simp only [hget]
    split <;> simp

/-- Scheduling resumes the head agent (when it exists with a live
greenlet) and stores the resumed state back under its id. -/
theorem schedule_get_head {M : Type} (E : Env M) (c : Coordinator M)
    (agent_id : String) (rest : List String) (ag : AgentState M)
    (h : c.agent_queue = agent_id :: rest)
    (hget : dictGet c.agents agent_id = some ag)
    (hex : ag.greenlet_exists = true) (hdd : ag.greenlet_dead = false) :
    dictGet (schedule E c).agents agent_id = some (resume E ag none) := by
  simp only [schedule, h, hget]
  rw [if_pos (by simp [hex, hdd])]
  simp [dictGet_dictInsert_self]

/-- Scheduling leaves every agent other than the head untouched. -/
theorem schedule_get_ne {M : Type} (E : Env M) (c : Coordinator M)
    (agent_id : String) (rest : List String) (id' : String)
    (h : c.agent_queue = agent_id :: rest) (hne : id' ≠ agent_id) :
    dictGet (schedule E c).agents id' = dictGet c.agents id' := by
  simp only [schedule, h]
  rcases hget : dictGet c.agents agent_id with _ | ag
  · simp [hget]
  · simp only [hget]
    split
    · simp [dictGet_dictInsert_ne _ _ _ _ hne]
    · simp

/-- Scheduling through a prefix `q1` of the rotation (all ids distinct,
each mapped to a live agent) rotates `q1` to the back, resumes each of
its agents exactly once, and leaves all other registry entries
untouched. -/
theorem scheduleN_go {M : Type} (E : Env M) :
    ∀ (q1 q2 : List String) (c : Coordinator M),
    c.agent_queue = q1 ++ q2 → (q1 ++ q2).Nodup →
    (∀ id ∈ q1, ∃ ag, dictGet c.agents id = some ag ∧
      ag.greenlet_exists = true ∧ ag.greenlet_dead = false) →
    (scheduleN E q1.length c).agent_queue = q2 ++ q1 ∧
    (∀ id ∈ q1, ∀ ag, dictGet c.agents id = some ag →
      dictGet (scheduleN E q1.length c).agents id = some (resume E ag none)) ∧
    (∀ id, id ∉ q1 → dictGet (scheduleN E q1.length c).agents id = dictGet c.agents id) := by
  intro q1
  induction q1 with
  | nil =>
    intro q2 c hq _ _
    refine ⟨by simpa using hq, by simp, fun id _ => rfl⟩
  | cons hd t ih =>
    intro q2 c hq hnd hv
    obtain ⟨ag, hget, hex, hdd⟩ := hv hd (by simp)
    have hq' : c.agent_queue = hd :: (t ++ q2) := by simpa using hq
    have hrot : (schedule E c).agent_queue = t ++ (q2 ++ [hd]) := by
      rw [schedule_rotate E c hd (t ++ q2) hq', List.append_assoc]
    have hhd : dictGet (schedule E c).agents hd = some (resume E ag none) :=
      schedule_get_head E c hd (t ++ q2) ag hq' hget hex hdd
    have hothers : ∀ id', id' ≠ hd →
        dictGet (schedule E c).agents id' = dictGet c.agents id' :=
      fun id' hne => schedule_get_ne E c hd (t ++ q2) id' hq' hne
    have hndc : (hd :: (t ++ q2)).Nodup := by simpa using hnd
    have hhdnot : hd ∉ t ++ q2 := (List.nodup_cons.mp hndc).1
    have hnd' : (t ++ (q2 ++ [hd])).Nodup := by
      have hp : (hd :: (t ++ q2)).Perm (t ++ (q2 ++ [hd])) := by
        rw [← List.append_assoc]
        exact @List.perm_append_comm String [hd] (t ++ q2)
      exact hp.nodup hndc
    have hv' : ∀ id ∈ t, ∃ ag', dictGet (schedule E c).agents id = some ag' ∧
        ag'.greenlet_exists = true ∧ ag'.greenlet_dead = false := by
      intro id hid
      have hne : id ≠ hd := by
        intro hEq
        exact hhdnot (hEq ▸ List.mem_append_left q2 hid)
      obtain ⟨ag', hget', hex', hdd'⟩ := hv id (List.mem_cons_of_mem hd hid)
      exact ⟨ag', by rw [hothers id hne]; exact hget', hex', hdd'⟩
    obtain ⟨ihq, ihhead, ihother⟩ := ih (q2 ++ [hd]) (schedule E c) hrot hnd' hv'
    have hsingle : scheduleN E (hd :: t).length c = scheduleN E t.length (schedule E c) := by
      simp [scheduleN]
    refine ⟨?_, ?_, ?_⟩
    · rw [hsingle, ihq]
      simp
    · intro id hid ag0 hget0
      rcases List.mem_cons.mp hid with hEq | hid'
      · subst hEq
        rw [hget0] at hget
        have hag : ag0 = ag := Option.some.inj hget
        subst hag
        have hidnott : id ∉ t := fun hmem => hhdnot (List.mem_append_left q2 hmem)
        rw [hsingle, ihother id hidnott, hhd]
      · have hne : id ≠ hd := by
          intro hEq
          exact hhdnot (hEq ▸ List.mem_append_left q2 hid')
        rw [hsingle]
        exact ihhead id hid' ag0 (by rw [hothers id hne]; exact hget0)
    · intro id hid
      have hne : id ≠ hd := fun hEq => hid (hEq ▸ List.mem_cons_self hd t)
      have hidnott : id ∉ t := fun hmem => hid (List.mem_cons_of_mem hd hmem)
      rw [hsingle, ihother id hidnott, hothers id hne]

/-- Claim C4: with N distinct registered agents, all with live
greenlets, N `schedule()` calls grant each agent exactly one quantum
(its resume counter increases by exactly one) and restore the rotation
to its starting order; moreover every single `schedule()` call pops the
head id and re-appends it at the tail unconditionally, advancing the
rotation even if the popped agent is missing or finished. -/
theorem C4_round_robin_fair {M : Type} (E : Env M) (c : Coordinator M)
    (hnd : c.agent_queue.Nodup)
    (hv : ∀ id ∈ c.agent_queue, ∃ ag, dictGet c.agents id = some ag ∧
      ag.greenlet_exists = true ∧ ag.greenlet_dead = false) :
    (scheduleN E c.agent_queue.length c).agent_queue = c.agent_queue ∧
    (∀ id ∈ c.agent_queue, ∀ ag, dictGet c.agents id = some ag →
      ∃ ag', dictGet (scheduleN E c.agent_queue.length c).agents id = some ag' ∧
        ag'.resumes = ag.resumes + 1) ∧
    (∀ (c' : Coordinator M) (agent_id : String) (rest : List String),
      c'.agent_queue = agent_id :: rest →
      (schedule E c').agent_queue = rest ++ [agent_id]) := by
  obtain ⟨hq, hhead, _⟩ := scheduleN_go E c.agent_queue [] c (by simp) (by simpa using hnd)
    hv
  refine ⟨by simpa using hq, ?_, fun c' id rest h => schedule_rotate E c' id rest h⟩
  intro id hid ag hget
  exact ⟨resume E ag none, hhead id hid ag hget, resume_resumes E ag none⟩

/-- Witness for C4: two live agents "a", "b"; two `schedule()` calls
resume each exactly once and restore the rotation ["a", "b"]. -/
theorem C4_witness :
    (⟨10, [("a", agentIdle), ("b", ⟨"b", [], true, 3, [], true, false, 0, 0, [], [], 0⟩)],
        ["a", "b"]⟩ : Coordinator Nat).agent_queue.Nodup ∧
    (scheduleN envOk 2 ⟨10, [("a", agentIdle),
        ("b", ⟨"b", [], true, 3, [], true, false, 0, 0, [], [], 0⟩)], ["a", "b"]⟩).agent_queue
      = ["a", "b"] ∧
    (∃ ag', dictGet (scheduleN envOk 2 ⟨10, [("a", agentIdle),
        ("b", ⟨"b", [], true, 3, [], true, false, 0, 0, [], [], 0⟩)],
        ["a", "b"]⟩).agents "a" = some ag' ∧ ag'.resumes = 1) := by
  have h := C4_round_robin_fair envOk ⟨10, [("a", agentIdle),
      ("b", ⟨"b", [], true, 3, [], true, false, 0, 0, [], [], 0⟩)], ["a", "b"]⟩
    (by decide) ?_
  · refine ⟨by decide, h.1, ?_⟩
    obtain ⟨ag', hget', hres⟩ := h.2.1 "a" (by simp) agentIdle (by decide)
    exact ⟨ag', hget', by simpa [agentIdle] using hres⟩
  · intro id hid
    simp only [List.mem_cons, List.not_mem_nil, or_false] at hid
    rcases hid with h1 | h1 <;> subst h1
    · exact ⟨agentIdle, by decide, rfl, rfl⟩
    · exact ⟨⟨"b", [], true, 3, [], true, false, 0, 0, [], [], 0⟩, by decide, rfl, rfl⟩

end A2A
